import Mathlib

/-!
Verification of the natural-language specification of `ds.py` (SpartanTan/chatbot)
against a shallow embedding of its code.

Text is modelled as `List Char` (Python `str`).  Python's `str.lower`,
`str.strip`, the `in` operator, `str.replace`, `re.split` on a delimiter
class, and f-string formatting are embedded as executable Lean functions
below, each next to the source construct it models.  The remote completion
API is abstracted as the list of stream chunks it yields; `difflib`'s
`SequenceMatcher(None, a, b).ratio()` (Python standard library, not
repository code) is abstracted as an arbitrary function parameter
`ratio : List Char → List Char → ℚ`.
-/

/-- Models Python `str.lower()` (`ds.py` uses it on ASCII-ish text): character-wise
lowercasing. -/
def pyLower (l : List Char) : List Char := l.map Char.toLower

/-- Whitespace characters stripped by Python `str.strip()` (ASCII subset). -/
def isPySpace (c : Char) : Bool := (" \t\n\r\x0b\x0c".data).contains c

/-- Models Python `str.strip()`: remove leading and trailing whitespace. -/
def pyStrip (l : List Char) : List Char :=
  ((l.dropWhile isPySpace).reverse.dropWhile isPySpace).reverse

/-- Models Python's substring test `needle in haystack` on strings. -/
def pyIn (needle : List Char) : List Char → Bool
  | [] => needle.isEmpty
  | c :: t => needle.isPrefixOf (c :: t) || pyIn needle t

/-! ## Stream Reconciler (`ChatSession._process_stream`, ds.py lines 93-127)

A stream chunk's `delta` carries `reasoning_content` (absent/None/empty on
chat models) and `content`; the chunk carries `finish_reason`.  All three
are modelled as `Option (List Char)`, with Python truthiness made explicit. -/

/-- A streamed chunk as read by `_process_stream`: `delta.reasoning_content`,
`delta.content` and `choices[0].finish_reason`. -/
structure Chunk where
  reasoning_content : Option (List Char)
  content : Option (List Char)
  finish_reason : Option (List Char)
deriving DecidableEq

/-- Python truthiness of an optional string: `None` and `""` are falsy. -/
def truthy : Option (List Char) → Bool
  | none => false
  | some s => !s.isEmpty

/-- Models the generator `_process_stream` (ds.py 105-127).  State: `printed`
is `reasoning_printed`, `acc` is the local `content` accumulator.  Returns the
ordered list of yielded `(reasoning_content, content)` pairs together with
`some acc` when a chunk with non-null `finish_reason` ended the stream (at
which point the code runs `append_message('assistant', content)` and breaks),
or `none` when the chunk iterator was exhausted without a terminal chunk. -/
def processStream : Bool → List Char → List Chunk →
    List (Option (List Char) × Option (List Char)) × Option (List Char)
  | _, _, [] => ([], none)
  | printed, acc, ch :: rest =>
    let step : List (Option (List Char) × Option (List Char)) × Bool × List Char :=
      if truthy ch.reasoning_content then
        (if printed then [(ch.reasoning_content, none)]
         else [(some "==Reasoning==\n".data, none), (ch.reasoning_content, none)],
         true, acc)
      else if truthy ch.content then
        ([(none, ch.content)], printed, acc ++ ch.content.getD [])
      else ([], printed, acc)
    if ch.finish_reason.isSome then (step.1, some step.2.2)
    else
      let r := processStream step.2.1 step.2.2 rest
      (step.1 ++ r.1, r.2)

/-- The yields a full run of the generator produces (initial state as in the
source: `reasoning_printed = False`, `content = ""`). -/
def streamYields (chunks : List Chunk) :
    List (Option (List Char) × Option (List Char)) :=
  (processStream false [] chunks).1

/-- The argument of the `append_message('assistant', content)` call executed on
the terminal chunk, when one arrived. -/
def finalAssistantMessage (chunks : List Chunk) : Option (List Char) :=
  (processStream false [] chunks).2

/-- Models the consumer loop in `__main__` (ds.py 336-342):
`for reasoning, reply in ...: if reasoning: print(reasoning) else:
print(reply); reply_accum += reply`.  Returns the ordered list of strings
printed to the live display and the final `reply_accum`. -/
def consume : List (Option (List Char) × Option (List Char)) →
    List (List Char) × List Char
  | [] => ([], [])
  | (r, a) :: t =>
    let rest := consume t
    if truthy r then ((r.getD []) :: rest.1, rest.2)
    else ((a.getD []) :: rest.1, (a.getD []) ++ rest.2)

/-- Everything printed to the live display during one streamed turn. -/
def displayOuts (chunks : List Chunk) : List (List Char) :=
  (consume (streamYields chunks)).1

/-- The `reply_accum` value after the consumer loop of one streamed turn. -/
def replyAccum (chunks : List Chunk) : List Char :=
  (consume (streamYields chunks)).2

/-- A yield is an answer fragment when its `reasoning` slot is falsy (the
consumer's `else` branch: it is printed and added to `reply_accum`). -/
def answerYield (y : Option (List Char) × Option (List Char)) : Bool :=
  !truthy y.1

/-- Concatenation, in order, of all answer-fragment texts forwarded to the
display during one streamed turn. -/
def forwardedAnswerConcat (chunks : List Chunk) : List Char :=
  (((streamYields chunks).filter answerYield).map (fun y => y.2.getD [])).foldr
    (fun a b => a ++ b) []

/-! ## Session Log Store (`append_to_log`, ds.py 200-203) -/

/-- Models `append_to_log`: the bytes appended to the session file are
`f"[{role} @ {now}]\n{content.strip()}\n\n"`. -/
def append_to_log (now role content : List Char) : List Char :=
  "[".data ++ role ++ " @ ".data ++ now ++ "]\n".data ++ pyStrip content ++ "\n\n".data

/-- Body text of the Assistant entry logged at the end of a completed streamed
turn: `__main__` calls `append_to_log(log_file, "Assistant", reply_accum)`,
and `append_to_log` strips the content. -/
def loggedAssistantBody (chunks : List Chunk) : List Char :=
  pyStrip (replyAccum chunks)

/-- The fields of a chunk other than the reasoning text itself: truthiness of
`reasoning_content`, plus `content` and `finish_reason` unchanged.  Two chunk
streams with the same redaction differ only in reasoning text. -/
def redactChunk (ch : Chunk) : Bool × Option (List Char) × Option (List Char) :=
  (truthy ch.reasoning_content, ch.content, ch.finish_reason)

/-- Concatenation of the `delta.content` of the chunks that take the
answer branch (falsy `reasoning_content`, truthy `content`), up to and
including the first chunk with non-null `finish_reason`. -/
def answerConcat : List Chunk → List Char
  | [] => []
  | ch :: rest =>
    let d := if !truthy ch.reasoning_content && truthy ch.content
             then ch.content.getD [] else []
    if ch.finish_reason.isSome then d else d ++ answerConcat rest

/-! ### Helper lemmas about the reconciler -/

lemma consume_append (a b : List (Option (List Char) × Option (List Char))) :
    consume (a ++ b) = ((consume a).1 ++ (consume b).1, (consume a).2 ++ (consume b).2) := by
  induction a with
  | nil => simp [consume]
  | cons y t ih =>
    obtain ⟨r, x⟩ := y
    by_cases hr : truthy r = true <;> simp [consume, hr, ih, List.append_assoc]

lemma consume_snd_eq_answerConcat :
    ∀ (printed : Bool) (acc : List Char) (chunks : List Chunk),
      (consume (processStream printed acc chunks).1).2 = answerConcat chunks := by
  intro printed acc chunks
  induction chunks generalizing printed acc with
  | nil => simp [processStream, consume, answerConcat]
  | cons ch rest ih =>
    by_cases hfin : ch.finish_reason.isSome = true <;>
    by_cases hr : truthy ch.reasoning_content = true <;>
    by_cases hc : truthy ch.content = true <;>
    by_cases hp : printed = true <;>
    simp [processStream, answerConcat, consume, consume_append, hfin, hr, hc, hp, ih] <;>
    simp [truthy]

lemma consume_fst_map (ys : List (Option (List Char) × Option (List Char))) :
    (consume ys).1 = ys.map (fun y => if truthy y.1 then y.1.getD [] else y.2.getD []) := by
  induction ys with
  | nil => simp [consume]
  | cons y t ih =>
    obtain ⟨r, a⟩ := y
    by_cases hr : truthy r = true <;> simp [consume, hr, ih]

lemma forwardedAnswerConcat_eq (chunks : List Chunk) :
    forwardedAnswerConcat chunks = answerConcat chunks := by
  have key : ∀ (printed : Bool) (acc : List Char) (cs : List Chunk),
      ((((processStream printed acc cs).1.filter answerYield).map
         (fun y => y.2.getD [])).foldr (fun a b => a ++ b) []) = answerConcat cs := by
    intro printed acc cs
    induction cs generalizing printed acc with
    | nil => simp [processStream, answerConcat]
    | cons ch rest ih =>
      by_cases hfin : ch.finish_reason.isSome = true <;>
      by_cases hr : truthy ch.reasoning_content = true <;>
      by_cases hc : truthy ch.content = true <;>
      by_cases hp : printed = true <;>
      simp [processStream, answerConcat, answerYield, hfin, hr, hc, hp, ih] <;>
      (try simp [answerYield, hr, ih, show truthy (some "==Reasoning==\n".data) = true from rfl,
                 show truthy none = false from rfl])
  exact key false [] chunks

lemma answerConcat_redact :
    ∀ (c c' : List Chunk), c.map redactChunk = c'.map redactChunk →
      answerConcat c = answerConcat c' := by
  intro c
  induction c with
  | nil => intro c' h; cases c' <;> simp_all [answerConcat]
  | cons ch rest ih =>
    intro c' h
    cases c' with
    | nil => simp at h
    | cons ch2 rest2 =>
      simp only [List.map_cons, List.cons.injEq] at h
      obtain ⟨hhd, htl⟩ := h
      have h1 : truthy ch.reasoning_content = truthy ch2.reasoning_content := by
        simpa [redactChunk] using congrArg Prod.fst hhd
      have h2 : ch.content = ch2.content := by
        simpa [redactChunk] using congrArg (fun p => p.2.1) hhd
      have h3 : ch.finish_reason = ch2.finish_reason := by
        simpa [redactChunk] using congrArg (fun p => p.2.2) hhd
      simp [answerConcat, h1, h2, h3, ih rest2 htl]

/-! ## Claims C1, C3, C4: the streamed turn -/

/-- Claim C1.  Reasoning text is never part of the persisted log.  Formally:
(1) the Assistant entry body logged for a turn depends only on the
reasoning-redacted chunks — two streams agreeing on content, finish reason and
reasoning *truthiness* but with arbitrarily different reasoning text produce
identical log entries; (2) `reply_accum`, the exact text handed to
`append_to_log`, is the concatenation of the answer fragments forwarded to the
display (reasoning yields, the `"==Reasoning==\n"` marker included, contribute
nothing to it); (3) every yielded fragment is forwarded to the live display. -/
theorem c1_reasoning_never_logged (chunks chunks2 : List Chunk)
    (h : chunks.map redactChunk = chunks2.map redactChunk) :
    loggedAssistantBody chunks = loggedAssistantBody chunks2
    ∧ replyAccum chunks = forwardedAnswerConcat chunks
    ∧ displayOuts chunks = (streamYields chunks).map
        (fun y => if truthy y.1 then y.1.getD [] else y.2.getD []) := by
  refine ⟨?_, ?_, ?_⟩
  · unfold loggedAssistantBody replyAccum streamYields
    rw [consume_snd_eq_answerConcat, consume_snd_eq_answerConcat,
        answerConcat_redact chunks chunks2 h]
  · unfold replyAccum streamYields
    rw [consume_snd_eq_answerConcat, forwardedAnswerConcat_eq]
  · unfold displayOuts
    exact consume_fst_map _

/-- A concrete stream containing reasoning text. -/
def c1ChunksA : List Chunk :=
  [⟨some "secret thoughts".data, none, none⟩,
   ⟨none, some "Hi".data, none⟩,
   ⟨none, none, some "stop".data⟩]

/-- The same stream with different reasoning text. -/
def c1ChunksB : List Chunk :=
  [⟨some "OTHER REASONING".data, none, none⟩,
   ⟨none, some "Hi".data, none⟩,
   ⟨none, none, some "stop".data⟩]

theorem c1_witness :
    loggedAssistantBody c1ChunksA = loggedAssistantBody c1ChunksB
    ∧ replyAccum c1ChunksA = forwardedAnswerConcat c1ChunksA :=
  ⟨(c1_reasoning_never_logged c1ChunksA c1ChunksB (by decide)).1,
   (c1_reasoning_never_logged c1ChunksA c1ChunksB (by decide)).2.1⟩

/-- The stream of the counterexample to claim C3: answer fragments `"C"` and
`"D\n"`, then a terminal chunk. -/
def c3Chunks : List Chunk :=
  [⟨none, some "C".data, none⟩,
   ⟨none, some "D\n".data, none⟩,
   ⟨none, none, some "stop".data⟩]

/-- Claim C3 as stated is false: for the completed turn `c3Chunks` the
concatenation of the answer fragments forwarded to the display is `"CD\n"`,
while the Assistant entry body written by `append_to_log` is the *stripped*
text `"CD"`; the two differ. -/
theorem c3_counterexample :
    forwardedAnswerConcat c3Chunks = "CD\n".data
    ∧ loggedAssistantBody c3Chunks = "CD".data
    ∧ forwardedAnswerConcat c3Chunks ≠ loggedAssistantBody c3Chunks := by
  decide

/-- Claim C3, amended.  For every completed streamed turn, the Assistant entry
body written to the session log equals the concatenation, in order, of all
answer-fragment texts forwarded to the display *after stripping leading and
trailing whitespace* (so the two are byte-identical exactly when the
concatenation carries no leading or trailing whitespace). -/
theorem c3_amended_strip (chunks : List Chunk) :
    loggedAssistantBody chunks = pyStrip (forwardedAnswerConcat chunks) := by
  unfold loggedAssistantBody replyAccum streamYields
  rw [consume_snd_eq_answerConcat, forwardedAnswerConcat_eq]

/-- The stream of the C4 scenario: reasoning fragments `"A"`, `"B"`, answer
fragments `"C"`, `"D"`, then a terminal chunk (non-null finish reason). -/
def c4Chunks : List Chunk :=
  [⟨some "A".data, none, none⟩,
   ⟨some "B".data, none, none⟩,
   ⟨none, some "C".data, none⟩,
   ⟨none, some "D".data, none⟩,
   ⟨none, none, some "stop".data⟩]

/-- Claim C4.  On the scenario stream, the live output sequence is exactly
`"==Reasoning==\n"`, `"A"`, `"B"`, `"C"`, `"D"` (marker emitted once, before
the first reasoning fragment only), the assistant message recorded by
`append_message` at stream end is `"CD"`, and the logged Assistant entry body
is exactly `"CD"`. -/
theorem c4_scenario :
    displayOuts c4Chunks =
      ["==Reasoning==\n".data, "A".data, "B".data, "C".data, "D".data]
    ∧ finalAssistantMessage c4Chunks = some "CD".data
    ∧ loggedAssistantBody c4Chunks = "CD".data := by
  decide

/-! ## Fuzzy Search Engine (`is_fuzzy_match`, `search_history`, ds.py 205-260) -/

/-- The delimiter class of `re.split(r'[\s_\-./\\:()\x27"`\[\]\x7b\x7d<>]+', ...)`
in `is_fuzzy_match` (whitespace modelled by its ASCII subset). -/
def delimChars : List Char := " \t\n\r\x0b\x0c_-./\\:()'\"`[]\x7b\x7d<>".data

/-- Membership in the delimiter class. -/
def isDelim (c : Char) : Bool := delimChars.contains c

/-- Models `re.split` on one maximal-run character class: splits the string at
maximal runs of delimiters, yielding an empty token at a leading or trailing
run (exactly as Python's `re.split('[...]+', s)` does). -/
def splitD (isD : Char → Bool) : List Char → List (List Char)
  | [] => [[]]
  | c :: t =>
    if isD c then
      match t with
      | [] => [[], []]
      | d :: _ => if isD d then splitD isD t else [] :: splitD isD t
    else (splitD isD t).modifyHead (fun tok => c :: tok)

/-- Models `is_fuzzy_match(line, keyword, threshold)` (ds.py 205-219): lowercase
both, return `True` on substring containment, else on tokenized containment,
else compare the `SequenceMatcher` ratio (abstracted as `ratio`) with the
threshold. -/
def is_fuzzy_match (ratio : List Char → List Char → ℚ)
    (line keyword : List Char) (threshold : ℚ) : Bool :=
  let line_lower := pyLower line
  let keyword_lower := pyLower keyword
  if pyIn keyword_lower line_lower then true
  else if (splitD isDelim line_lower).any (fun tok => pyIn keyword_lower tok) then true
  else decide (threshold ≤ ratio line_lower keyword_lower)

lemma pyIn_iff (n h : List Char) : pyIn n h = true ↔ n <:+: h := by
  induction h with
  | nil =>
    simp [pyIn, List.isEmpty_iff]
  | cons c t ih =>
    simp [pyIn, List.infix_cons_iff, ih, List.isPrefixOf_iff_prefix]

/-- Claim C5.  The match test succeeds iff one of the three case-insensitive
tiers holds: (a) lowered-keyword substring of lowered text, (b) some token of
the delimiter-split lowered text contains the lowered keyword, (c) the
similarity ratio of the lowered texts is at least 0.6; and every keyword that
is an exact literal substring of the turn text matches by tier (a) alone.
`ratio` abstracts `difflib.SequenceMatcher(None, ·, ·).ratio()`; the claim
holds for every such function. -/
theorem c5_match_tiers (ratio : List Char → List Char → ℚ) (line keyword : List Char) :
    (is_fuzzy_match ratio line keyword (3/5) = true ↔
       (pyIn (pyLower keyword) (pyLower line) = true
        ∨ (splitD isDelim (pyLower line)).any (fun tok => pyIn (pyLower keyword) tok) = true
        ∨ 3/5 ≤ ratio (pyLower line) (pyLower keyword)))
    ∧ (keyword <:+: line → is_fuzzy_match ratio line keyword (3/5) = true) := by
  constructor
  · unfold is_fuzzy_match
    by_cases h1 : pyIn (pyLower keyword) (pyLower line) = true
    · simp [h1]
    · by_cases h2 : (splitD isDelim (pyLower line)).any
          (fun tok => pyIn (pyLower keyword) tok) = true
      · simp [h1, h2]
      · simp [h1, h2]
  · intro hsub
    have hlow : pyIn (pyLower keyword) (pyLower line) = true := by
      rw [pyIn_iff]
      unfold pyLower
      exact List.IsInfix.map Char.toLower hsub
    unfold is_fuzzy_match
    simp [hlow]

/-- A trivial stand-in similarity function used to instantiate theorems whose
statements hold for every `ratio`. -/
def ratio0 : List Char → List Char → ℚ := fun _ _ => 0

theorem c5_witness :
    is_fuzzy_match ratio0 "say hello world".data "hello".data (3/5) = true :=
  (c5_match_tiers ratio0 "say hello world".data "hello".data).2 (by decide)

/-- Does a line open a new turn, as tested at ds.py 238:
`line.startswith("[User") or line.startswith("[Assistant")`. -/
def startsHeader (line : List Char) : Bool :=
  "[User".data.isPrefixOf line || "[Assistant".data.isPrefixOf line

/-- The mutable scan state of `search_history`: `results`, `current_header`,
`current_block`.  In the source all three are initialised once, *outside* the
loop over files (ds.py 226-228). -/
structure ScanSt where
  results : List (List Char × List Char × List Char)
  header : List Char
  block : List Char
deriving DecidableEq

/-- Models the per-line body of `search_history`'s scan (ds.py 237-246). -/
def scanLine (ratio : List Char → List Char → ℚ) (keyword filename : List Char)
    (st : ScanSt) (line : List Char) : ScanSt :=
  if startsHeader line then
    let res := if !(pyStrip st.block).isEmpty && is_fuzzy_match ratio st.block keyword (3/5)
               then st.results ++ [(filename, pyStrip st.header, pyStrip st.block)]
               else st.results
    ⟨res, line, []⟩
  else ⟨st.results, st.header, st.block ++ line⟩

/-- Models one iteration of the `for filename in sorted(os.listdir(...))` loop
(ds.py 230-250): scan the file's lines, then handle the final block at end of
file.  Note the source resets neither `current_header` nor `current_block`
before the next file. -/
def scanFile (ratio : List Char → List Char → ℚ) (keyword : List Char)
    (st : ScanSt) (file : List Char × List (List Char)) : ScanSt :=
  let st2 := file.2.foldl (scanLine ratio keyword file.1) st
  if !(pyStrip st2.block).isEmpty && is_fuzzy_match ratio st2.block keyword (3/5)
  then ⟨st2.results ++ [(file.1, pyStrip st2.header, pyStrip st2.block)], st2.header, st2.block⟩
  else st2

/-- The collected `(filename, header, body)` match triples of
`search_history(keyword)` over a history directory, modelled as the
`.session`-filtered directory listing in sorted order, each file given as its
list of lines (with line terminators, as `readlines()` returns them). -/
def search_results (ratio : List Char → List Char → ℚ)
    (dir : List (List Char × List (List Char))) (keyword : List Char) :
    List (List Char × List Char × List Char) :=
  ((dir.filter (fun f => ".session".data.isSuffixOf f.1)).foldl
    (scanFile ratio keyword) ⟨[], [], []⟩).results

/-- What `search_history` reports (ds.py 252-260): the no-results message, or
the shown slice `results[-max_results:]` of the match list. -/
inductive SearchOutput
  | noResults
  | report (shown : List (List Char × List Char × List Char))
deriving DecidableEq

/-- Models the Python slice `l[-k:]` (for `k = 0` it is `l[0:]`, the whole
list). -/
def pyLastSlice (k : Nat) (l : List α) : List α :=
  if k = 0 then l else l.drop (l.length - k)

/-- Models the reporting tail of `search_history` (ds.py 252-260). -/
def search_history (ratio : List Char → List Char → ℚ)
    (dir : List (List Char × List (List Char))) (keyword : List Char)
    (max_results : Nat) : SearchOutput :=
  let results := search_results ratio dir keyword
  if results = [] then SearchOutput.noResults
  else SearchOutput.report (pyLastSlice max_results results)

/-! ## Claims C2 and C7: search segmentation and reporting -/

/-- A history directory with two session files: `a.session` holds one turn
with body `x`, `b.session` holds one turn with body `xy`. -/
def dirC2 : List (List Char × List (List Char)) :=
  [("a.session".data, ["[User @ 10:00:00]\n".data, "x\n".data, "\n".data]),
   ("b.session".data, ["[User @ 10:00:05]\n".data, "xy\n".data, "\n".data])]

/-- Claim C2 fails on the code: because `current_block` and `current_header`
are initialised outside the file loop (ds.py 227-228) and never reset between
files, searching `dirC2` for `"x"` reports the single matching turn of
`a.session` *twice* — the second time attributed to `b.session` (whose lines
never contained `x` alone) while carrying `a.session`'s header.  This
contradicts per-file segmentation and exactly-once reporting, for every
similarity function. -/
theorem c2_cross_file_carryover (ratio : List Char → List Char → ℚ) :
    search_results ratio dirC2 "x".data =
      [("a.session".data, "[User @ 10:00:00]".data, "x".data),
       ("b.session".data, "[User @ 10:00:00]".data, "x".data),
       ("b.session".data, "[User @ 10:00:05]".data, "xy".data)] := by
  rfl

/-- Claim C7.  If the collected match list is empty the search signals "no
results" and reports nothing; otherwise it reports exactly the last
`max_results` elements of the match list (all of them when fewer exist): the
shown list is the length-`min max_results length` suffix of the match list. -/
theorem c7_report_last (ratio : List Char → List Char → ℚ)
    (dir : List (List Char × List (List Char))) (keyword : List Char)
    (maxr : Nat) (hmax : 0 < maxr) :
    (search_results ratio dir keyword = [] ↔
       search_history ratio dir keyword maxr = SearchOutput.noResults)
    ∧ (search_results ratio dir keyword ≠ [] →
        search_history ratio dir keyword maxr =
          SearchOutput.report ((search_results ratio dir keyword).drop
            ((search_results ratio dir keyword).length - maxr))
        ∧ ((search_results ratio dir keyword).drop
            ((search_results ratio dir keyword).length - maxr))
              <:+ search_results ratio dir keyword
        ∧ ((search_results ratio dir keyword).drop
            ((search_results ratio dir keyword).length - maxr)).length
              = min maxr (search_results ratio dir keyword).length) := by
  constructor
  · constructor
    · intro h
      simp [search_history, h]
    · intro h
      by_contra hne
      simp [search_history, hne] at h
  · intro hne
    refine ⟨?_, ?_, ?_⟩
    · simp [search_history, hne, pyLastSlice, Nat.pos_iff_ne_zero.mp hmax]
    · exact List.drop_suffix _ _
    · rw [List.length_drop]
      omega

/-- A history directory with a single matching turn, for instantiating C7. -/
def dirC7 : List (List Char × List (List Char)) :=
  [("a.session".data, ["[User @ 10:00:00]\n".data, "hello world\n".data, "\n".data])]

theorem c7_witness :
    search_history ratio0 dirC7 "hello".data 10 =
      SearchOutput.report ((search_results ratio0 dirC7 "hello".data).drop
        ((search_results ratio0 dirC7 "hello".data).length - 10)) :=
  ((c7_report_last ratio0 dirC7 "hello".data 10 (by decide)).2 (by decide)).1

/-! ## Keyword highlighting (`highlight_keyword`, ds.py 262-273)

The source scans `text` with an index `i`: when the lowered slice
`text[i:i+len(keyword)]` equals the lowered keyword it emits the slice wrapped
in colour markup and advances by `len(keyword)`, otherwise it emits `text[i]`
and advances by one.  The output string is modelled structurally: a list of
pieces, where `raw c` is an unhighlighted character and `emph s` is a span
wrapped in `Fore.RED + Style.BRIGHT ... Style.RESET_ALL` markup.  The loop is
modelled by recursion on the remaining suffix `text[i:]`, with explicit fuel
because for an empty keyword the Python loop does not terminate (claim C10,
proved below on the direct index-step model `hlStep`); `text.length` fuel is
exact whenever the keyword is non-empty. -/

/-- One output piece of `highlight_keyword`: a plain character or an
emphasised (colour-marked) span. -/
inductive Piece
  | raw (c : Char)
  | emph (s : List Char)
deriving DecidableEq

/-- Fuelled scan loop of `highlight_keyword`. -/
def highlightF (kw : List Char) : Nat → List Char → List Piece
  | 0, _ => []
  | _ + 1, [] => []
  | f + 1, c :: rest =>
    if pyLower ((c :: rest).take kw.length) = pyLower kw then
      Piece.emph ((c :: rest).take kw.length) :: highlightF kw f ((c :: rest).drop kw.length)
    else
      Piece.raw c :: highlightF kw f rest

/-- Models `highlight_keyword(text, keyword)` (ds.py 262-273). -/
def highlight_keyword (text keyword : List Char) : List Piece :=
  highlightF keyword text.length text

/-- Removes all emphasis markup: concatenate the pieces back to plain text. -/
def stripMarkup : List Piece → List Char
  | [] => []
  | Piece.raw c :: t => c :: stripMarkup t
  | Piece.emph s :: t => s ++ stripMarkup t

/-- The emphasised spans of a highlighted result, as (start position, span
text) pairs, positions counted in the underlying plain text. -/
def pieceSpans : List Piece → Nat → List (Nat × List Char)
  | [], _ => []
  | Piece.raw _ :: t, pos => pieceSpans t (pos + 1)
  | Piece.emph s :: t, pos => (pos, s) :: pieceSpans t (pos + s.length)

/-- Spec-side definition, following the specification's words: the
case-insensitive literal occurrences of the keyword found by a single
left-to-right scan that is greedy and non-overlapping — at each position, if
the keyword matches case-insensitively, record the occurrence and resume after
it; otherwise advance one character. -/
def specGreedyMatchesF (kw : List Char) : Nat → Nat → List Char → List (Nat × List Char)
  | 0, _, _ => []
  | _ + 1, _, [] => []
  | f + 1, pos, c :: rest =>
    if pyLower ((c :: rest).take kw.length) = pyLower kw then
      (pos, (c :: rest).take kw.length) ::
        specGreedyMatchesF kw f (pos + kw.length) ((c :: rest).drop kw.length)
    else
      specGreedyMatchesF kw f (pos + 1) rest

/-- The spec-side greedy occurrence list for a whole text. -/
def specGreedyMatches (kw text : List Char) : List (Nat × List Char) :=
  specGreedyMatchesF kw text.length 0 text

lemma hl_core (kw : List Char) (hk : kw ≠ []) :
    ∀ fuel t, t.length ≤ fuel → ∀ pos,
      stripMarkup (highlightF kw fuel t) = t
      ∧ pieceSpans (highlightF kw fuel t) pos = specGreedyMatchesF kw fuel pos t := by
  intro fuel
  induction fuel with
  | zero =>
    intro t ht pos
    have hnil : t = [] := List.length_eq_zero.mp (Nat.le_zero.mp ht)
    subst hnil
    simp [highlightF, stripMarkup, specGreedyMatchesF, pieceSpans]
  | succ f ih =>
    intro t ht pos
    cases t with
    | nil => simp [highlightF, stripMarkup, specGreedyMatchesF, pieceSpans]
    | cons c rest =>
      by_cases hguard : pyLower ((c :: rest).take kw.length) = pyLower kw
      · have hklen0 : 0 < kw.length := List.length_pos.mpr hk
        have hlen : ((c :: rest).take kw.length).length = kw.length := by
          have := congrArg List.length hguard
          simpa [pyLower] using this
        have hdrop : ((c :: rest).drop kw.length).length ≤ f := by
          simp only [List.length_drop, List.length_cons]
          simp only [List.length_cons] at ht
          omega
        obtain ⟨ih1, ih2⟩ := ih ((c :: rest).drop kw.length) hdrop (pos + kw.length)
        constructor
        · simp only [highlightF, hguard, if_pos, stripMarkup]
          rw [ih1, List.take_append_drop]
        · simp only [highlightF, hguard, if_pos, pieceSpans, specGreedyMatchesF, hlen]
          rw [ih2]
      · have hrest : rest.length ≤ f := by
          simp only [List.length_cons] at ht
          omega
        obtain ⟨ih1, ih2⟩ := ih rest hrest (pos + 1)
        constructor
        · simp [highlightF, hguard, stripMarkup, ih1]
        · simp [highlightF, hguard, pieceSpans, specGreedyMatchesF, ih2]

lemma hl_emph (kw : List Char) :
    ∀ fuel t s, Piece.emph s ∈ highlightF kw fuel t → pyLower s = pyLower kw := by
  intro fuel
  induction fuel with
  | zero =>
    intro t s h
    simp [highlightF] at h
  | succ f ih =>
    intro t s h
    cases t with
    | nil => simp [highlightF] at h
    | cons c rest =>
      by_cases hg : pyLower ((c :: rest).take kw.length) = pyLower kw
      · simp [highlightF, hg] at h
        rcases h with h | h
        · rw [h]
          exact hg
        · exact ih _ _ h
      · simp [highlightF, hg] at h
        exact ih _ _ h

/-- Claim C6.  For every non-empty keyword: stripping all emphasis markup from
the output of `highlight_keyword` yields the input text byte-identically; the
emphasised spans are exactly the occurrences produced by the spec's greedy
non-overlapping left-to-right case-insensitive scan; and every emphasised span
is a case-insensitive copy of the keyword. -/
theorem c6_highlight_roundtrip (text keyword : List Char) (hk : keyword ≠ []) :
    stripMarkup (highlight_keyword text keyword) = text
    ∧ pieceSpans (highlight_keyword text keyword) 0 = specGreedyMatches keyword text
    ∧ ∀ s, Piece.emph s ∈ highlight_keyword text keyword →
        pyLower s = pyLower keyword := by
  obtain ⟨h1, h2⟩ := hl_core keyword hk text.length text (le_refl _) 0
  exact ⟨h1, h2, fun s hs => hl_emph keyword _ _ _ hs⟩

theorem c6_witness :
    stripMarkup (highlight_keyword "Hello hello world".data "hello".data)
      = "Hello hello world".data :=
  (c6_highlight_roundtrip "Hello hello world".data "hello".data (by decide)).1

/-- The index update of `highlight_keyword`'s `while i < len(text)` loop body
(ds.py 266-272), as a step function on the loop counter `i`. -/
def hlStep (text kw : List Char) (i : Nat) : Nat :=
  if pyLower ((text.drop i).take kw.length) = pyLower kw then i + kw.length else i + 1

/-- Claim C10.  The scan loop of `highlight_keyword` terminates whenever the
keyword is non-empty or the text is empty: after `text.length` iterations the
index has reached `text.length` and the loop guard `i < len(text)` fails.  For
an empty keyword the step never advances the index (each iteration matches the
empty slice and adds `len(keyword) = 0`), so for non-empty text the guard
holds after every number of iterations — the loop never exits. -/
theorem c10_highlight_termination (text kw : List Char) :
    ((kw ≠ [] ∨ text = []) → text.length ≤ (hlStep text kw)^[text.length] 0)
    ∧ (kw = [] → ∀ n, (hlStep text kw)^[n] 0 = 0)
    ∧ (kw = [] → text ≠ [] → ∀ n, (hlStep text kw)^[n] 0 < text.length) := by
  have hid : ∀ i, hlStep text [] i = i := by
    intro i
    simp [hlStep, pyLower]
  have hiter0 : ∀ n, (hlStep text [])^[n] 0 = 0 := by
    intro n
    induction n with
    | zero => rfl
    | succ m ihm => rw [Function.iterate_succ_apply', ihm, hid]
  refine ⟨?_, ?_, ?_⟩
  · rintro (hkne | htext)
    · have hstep : ∀ i, i + 1 ≤ hlStep text kw i := by
        intro i
        have hklen : 0 < kw.length := List.length_pos.mpr hkne
        unfold hlStep
        split
        · omega
        · omega
      have hgrow : ∀ n, n ≤ (hlStep text kw)^[n] 0 := by
        intro n
        induction n with
        | zero => exact Nat.zero_le _
        | succ m ihm =>
          rw [Function.iterate_succ_apply']
          exact Nat.le_trans (Nat.succ_le_succ ihm) (hstep _)
      exact hgrow text.length
    · subst htext
      simp
  · intro hkw
    subst hkw
    exact hiter0
  · intro hkw htext n
    subst hkw
    rw [hiter0 n]
    exact List.length_pos.mpr htext

theorem c10_witness :
    ("ab".data.length ≤ (hlStep "ab".data "b".data)^[("ab".data.length)] 0)
    ∧ ((hlStep "ab".data ([] : List Char))^[5] 0 = 0) :=
  ⟨(c10_highlight_termination "ab".data "b".data).1 (Or.inl (by decide)),
   (c10_highlight_termination "ab".data []).2.1 rfl 5⟩

/-! ## Interactive loop: file-inclusion directives (`__main__`, ds.py 301-333)

One iteration of the inner input loop: the raw input line is appended to the
log as a User entry (ds.py 312), then `re.findall(r'@file\((.*?)\)', ...)`
extracts the directive paths, and each is opened in order; the first missing
file prints a warning, sets `file_not_found` and breaks, after which the loop
re-prompts; when all files are read the expanded input is dispatched to
`get_response` (which appends the user message to the conversation state and
calls the API).  The filesystem is abstracted as a partial map from path to
content. -/

/-- Match helper for the regex `@file\((.*?)\)`: from the characters following
`@file(`, non-greedily grab the capture up to the first `)`; `.` does not
match a newline, so a newline (or end of input) before any `)` means no match
at this position. -/
def grab : List Char → Option (List Char × List Char)
  | [] => none
  | c :: t =>
    if c = ')' then some ([], t)
    else if c = '\n' then none
    else (grab t).map (fun pr => (c :: pr.1, pr.2))

/-- Fuelled scan of `re.findall(r'@file\((.*?)\)', s)`: left-to-right,
non-overlapping; after a match, scanning resumes after the closing `)`;
a failed match position advances by one character.  `s.length` fuel always
suffices since every recursive call consumes at least one character. -/
def findRefsF : Nat → List Char → List (List Char)
  | 0, _ => []
  | _ + 1, [] => []
  | f + 1, c :: t =>
    if "@file(".data.isPrefixOf (c :: t) then
      match grab ((c :: t).drop 6) with
      | some (p, rest) => p :: findRefsF f rest
      | none => findRefsF f t
    else findRefsF f t

/-- The list of `@file(...)` directive paths found in an input line. -/
def findRefs (s : List Char) : List (List Char) := findRefsF s.length s

/-- Fuelled model of Python `s.replace(old, new)` for non-empty `old`:
replace every non-overlapping occurrence, scanning left to right. -/
def replAllF (old new : List Char) : Nat → List Char → List Char
  | 0, s => s
  | _ + 1, [] => []
  | f + 1, c :: t =>
    if !old.isEmpty && old.isPrefixOf (c :: t) then
      new ++ replAllF old new f ((c :: t).drop old.length)
    else c :: replAllF old new f t

/-- Models `user_input.replace(old, new)` as called at ds.py 322-325 (there
`old` is `@file(<path>)`, never empty). -/
def replAll (old new s : List Char) : List Char := replAllF old new s.length s

/-- The delimited block substituted for a directive (ds.py 324): header line
naming the file, the file's content, and a footer line. -/
def wrapFile (p content : List Char) : List Char :=
  "\n===== 文件 ".data ++ p ++ " 内容如下 =====\n".data ++ content
    ++ "\n===== 结束 =====\n".data

/-- Models the `for file_name in file_refs` expansion loop (ds.py 318-330):
returns `Sum.inl expanded` when every referenced file exists (the loop ran to
completion and the turn is dispatched), or `Sum.inr missing` naming the first
missing file (warning printed, `file_not_found = True`, loop broken). -/
def inclusionLoop (fs : List Char → Option (List Char)) :
    List (List Char) → List Char → (List Char) ⊕ (List Char)
  | [], ui => Sum.inl ui
  | p :: rest, ui =>
    match fs p with
    | none => Sum.inr p
    | some content =>
        inclusionLoop fs rest
          (replAll ("@file(".data ++ p ++ ")".data) (wrapFile p content) ui)

/-- Outcome of one iteration of the inner input loop for one input line:
the User entry body appended to the log (written *before* the directives are
examined, ds.py 312), the expanded text handed to `get_response` when the
turn was dispatched (`none` means `get_response` was never invoked and the
loop re-prompts), and the missing file named in the warning, if any. -/
structure TurnResult where
  loggedUser : List Char
  dispatched : Option (List Char)
  warning : Option (List Char)
deriving DecidableEq

/-- Models ds.py 312-333 for one input line. -/
def turnStep (fs : List Char → Option (List Char)) (input : List Char) : TurnResult :=
  match inclusionLoop fs (findRefs input) input with
  | Sum.inl expanded => ⟨pyStrip input, some expanded, none⟩
  | Sum.inr missing => ⟨pyStrip input, none, some missing⟩

/-- Conversation state after the turn: `get_response` appends the (expanded)
user message before calling the API (ds.py 70); nothing is appended when the
turn is not dispatched. -/
def messagesAfterTurn (msgs : List (List Char × List Char)) (tr : TurnResult) :
    List (List Char × List Char) :=
  match tr.dispatched with
  | none => msgs
  | some e => msgs ++ [("user".data, e)]

lemma incl_missing (fs : List Char → Option (List Char)) (p : List Char)
    (hmiss : fs p = none) :
    ∀ (refs : List (List Char)) (ui : List Char), p ∈ refs →
      ∃ q, inclusionLoop fs refs ui = Sum.inr q := by
  intro refs
  induction refs with
  | nil =>
    intro ui h
    cases h
  | cons r rest ih =>
    intro ui hmem
    cases hfr : fs r with
    | none => exact ⟨r, by simp [inclusionLoop, hfr]⟩
    | some content =>
      have hne : p ≠ r := by
        intro he
        rw [he, hfr] at hmiss
        cases hmiss
      have hp2 : p ∈ rest := by
        rcases List.mem_cons.mp hmem with h | h
        · exact absurd h hne
        · exact h
      obtain ⟨q, hq⟩ :=
        ih (replAll ("@file(".data ++ r ++ ")".data) (wrapFile r content) ui) hp2
      refine ⟨q, ?_⟩
      simp only [inclusionLoop, hfr]
      simpa using hq

/-- Claim C8.  For every input line containing an `@file(<path>)` directive
whose path does not exist, the turn is not dispatched: `get_response` is never
invoked (`dispatched = none`, so input capture restarts and the user is
re-prompted), a warning names a missing file, and no message is appended to
the conversation state. -/
theorem c8_missing_file (fs : List Char → Option (List Char))
    (input p : List Char) (msgs : List (List Char × List Char))
    (hp : p ∈ findRefs input) (hmiss : fs p = none) :
    (turnStep fs input).dispatched = none
    ∧ (turnStep fs input).warning ≠ none
    ∧ messagesAfterTurn msgs (turnStep fs input) = msgs := by
  obtain ⟨q, hq⟩ := incl_missing fs p hmiss (findRefs input) input hp
  simp [turnStep, hq, messagesAfterTurn]

/-- A filesystem on which every path is missing. -/
def fsEmpty : List Char → Option (List Char) := fun _ => none

theorem c8_witness :
    (turnStep fsEmpty "Please review @file(missing.txt)".data).dispatched = none
    ∧ (turnStep fsEmpty "Please review @file(missing.txt)".data).warning ≠ none
    ∧ messagesAfterTurn [] (turnStep fsEmpty "Please review @file(missing.txt)".data) = [] :=
  c8_missing_file fsEmpty "Please review @file(missing.txt)".data
    "missing.txt".data [] (by decide) rfl

/-- Claim C9.  The raw input line is logged as the User entry body (stripped,
as `append_to_log` always does) *before* any directive is checked or
expanded: the logged body is the same for every filesystem — hence an aborted
line's un-expanded text is in the log even though the line was never
dispatched, and a dispatched line's logged User turn carries the directive
text, not the expanded file contents sent to the API. -/
theorem c9_raw_input_logged (fs fs2 : List Char → Option (List Char))
    (input : List Char) :
    (turnStep fs input).loggedUser = pyStrip input
    ∧ (turnStep fs input).loggedUser = (turnStep fs2 input).loggedUser := by
  constructor
  · unfold turnStep
    cases inclusionLoop fs (findRefs input) input <;> rfl
  · unfold turnStep
    cases inclusionLoop fs (findRefs input) input <;>
      cases inclusionLoop fs2 (findRefs input) input <;> rfl
